import Mathlib

/-!
Formal model of the double-slit simulator (`doubleSlit.py`).

Python floats are modelled by real numbers; numpy's process-wide
pseudorandom generator is modelled by an oracle that answers the `k`-th
random call, the call counter being threaded explicitly; Python
exceptions (`raise ValueError`) are modelled by `Except String`;
in-place mutation of the `doubleSlit` object is modelled by returning
an updated state.
-/

open scoped Classical

noncomputable section

/-- Model of `np.linspace(a, b, num)`: the `i`-th of `num` evenly spaced
points running from `a` to `b` inclusive. -/
def linspace (a b : ℝ) (num : ℕ) (i : ℕ) : ℝ :=
  a + (b - a) * i / ((num : ℝ) - 1)

/-- Model of `waveFunction.evaluate_unnormalized`:
`np.cos(np.pi * self.d * x / self.distance_to_screen) ** 2`. -/
def evaluate_unnormalized (d distance_to_screen x : ℝ) : ℝ :=
  Real.cos (Real.pi * d * x / distance_to_screen) ^ 2

/-- Model of `self.values = np.linspace(-10, 10, num=1000)` (continuous mode). -/
def contValues (i : ℕ) : ℝ := linspace (-10) 10 1000 i

/-- Model of `scipy.integrate.trapezoid(y, x)` over `n` sample points:
the sum of `(x[i+1] - x[i]) * (y[i] + y[i+1]) / 2`. -/
def trapezoid (y x : ℕ → ℝ) (n : ℕ) : ℝ :=
  ∑ i ∈ Finset.range (n - 1), (x (i + 1) - x i) * (y i + y (i + 1)) / 2

/-- Model of `self.norm = scipy.integrate.trapezoid(self.evaluate_unnormalized(self.values), self.values)`. -/
def normConst (d distance_to_screen : ℝ) : ℝ :=
  trapezoid (fun i => evaluate_unnormalized d distance_to_screen (contValues i)) contValues 1000

/-- Model of `np.linspace(self.values[i], self.values[i+1], num=100)`:
the 100-point refined grid spanning the `i`-th support interval. -/
def refGrid (i j : ℕ) : ℝ := linspace (contValues i) (contValues (i + 1)) 100 j

/-- Model of `scipy.integrate.trapezoid(self.evaluate(np.linspace(...)), np.linspace(...))`
for interval `i`; in continuous mode `self.evaluate` is the unnormalized
density divided by `self.norm`, with `self.norm` already assigned. -/
def binMass (d distance_to_screen : ℝ) (i : ℕ) : ℝ :=
  trapezoid
    (fun j => evaluate_unnormalized d distance_to_screen (refGrid i j) / normConst d distance_to_screen)
    (refGrid i) 100

/-- Model of the pre-renormalization weight list built in `__init__`:
`self.probs = [0]` followed by `self.probs.extend([...for i in range(999)])`. -/
def probsList (d distance_to_screen : ℝ) : List ℝ :=
  0 :: List.ofFn (fun i : Fin 999 => binMass d distance_to_screen i.val)

/-- State of a `waveFunction` object after `__init__` has run. -/
structure waveFunction where
  d : ℝ
  distance_to_screen : ℝ
  measure_slit : Bool
  values : List ℝ
  norm : ℝ
  probs : List ℝ

/-- Model of `waveFunction.__init__`.  The final assignment
`self.probs = self.probs / sum(self.probs)` is numpy elementwise division
of the weight list by its own sum. -/
def waveFunction.init (d distance_to_screen : ℝ) (measure_slit : Bool) : waveFunction :=
  if measure_slit then
    { d := d, distance_to_screen := distance_to_screen, measure_slit := measure_slit,
      values := [-1 * d / 2, d / 2],
      norm := 1,
      probs := [0.5, 0.5] }
  else
    { d := d, distance_to_screen := distance_to_screen, measure_slit := measure_slit,
      values := List.ofFn (fun i : Fin 1000 => contValues i.val),
      norm := normConst d distance_to_screen,
      probs := (probsList d distance_to_screen).map
        (fun p => p / (probsList d distance_to_screen).sum) }

/-- Model of `waveFunction.evaluate`. -/
def waveFunction.evaluate (w : waveFunction) (x : ℝ) : ℝ :=
  if w.measure_slit = false then
    evaluate_unnormalized w.d w.distance_to_screen x / w.norm
  else if x = -1 * w.d / 2 then 0.5
  else if x = w.d / 2 then 0.5
  else 0

/-- One request to numpy's process-wide pseudorandom generator: which
primitive is called and with which parameters. -/
inductive RandReq where
  | choice (values : List ℝ) (probs : List ℝ)
  | normal (scale : ℝ)
  | uniform (low high : ℝ)

/-- Oracle model of the shared pseudorandom source: the value returned by
the `k`-th random call, given the request made. -/
def RNG : Type := ℕ → RandReq → ℝ

/-- Model of `waveFunction.measure`: one categorical draw
`np.random.choice(self.values, p=self.probs)` followed by one jitter draw,
Gaussian `np.random.normal(scale=0.2)` in collapsed mode and uniform
`np.random.uniform(low=-0.01, high=0.01)` otherwise.  Returns the measured
x coordinate and the advanced call counter. -/
def waveFunction.measure (w : waveFunction) (g : RNG) (k : ℕ) : ℝ × ℕ :=
  let temp_value := g k (RandReq.choice w.values w.probs)
  if w.measure_slit then
    (temp_value + g (k + 1) (RandReq.normal 0.2), k + 2)
  else
    (temp_value + g (k + 1) (RandReq.uniform (-0.01) 0.01), k + 2)

/-- State of a `doubleSlit` object. -/
structure doubleSlit where
  slit_dist : ℝ
  distance_to_screen : ℝ
  measure_slit : Bool
  screen_width : ℕ
  screen_height : ℕ
  detections_x : List ℝ
  detections_y : List ℝ
  wavefunction : waveFunction

/-- Model of `doubleSlit.__init__`. -/
def doubleSlit.init (slit_dist distance_to_screen : ℝ) (screen_width screen_height : ℕ)
    (measure_slit : Bool) : doubleSlit :=
  { slit_dist := slit_dist, distance_to_screen := distance_to_screen,
    detections_x := [], detections_y := [],
    screen_width := screen_width, screen_height := screen_height,
    measure_slit := measure_slit,
    wavefunction := waveFunction.init slit_dist distance_to_screen measure_slit }

/-- Model of `doubleSlit.fire_electron`: the two staleness checks, then the
discarded tangent-transformed first draw `detected_x`, then the append of a
second independent draw to `detections_x` and of one Gaussian draw with
standard deviation 1.7 to `detections_y`. -/
def doubleSlit.fire_electron (s : doubleSlit) (g : RNG) (k : ℕ) :
    Except String (doubleSlit × ℕ) :=
  if s.slit_dist ≠ s.wavefunction.d then
    Except.error "slit_dist attribute has been modified. Screen must be cleared."
  else if s.distance_to_screen ≠ s.wavefunction.distance_to_screen then
    Except.error "distance_to_screen attribute has been modified. Screen must be cleared."
  else
    let m1 := s.wavefunction.measure g k
    let detected_x := s.distance_to_screen * Real.tan m1.1
    let m2 := s.wavefunction.measure g m1.2
    let y := g m2.2 (RandReq.normal 1.7)
    Except.ok
      ({ s with detections_x := s.detections_x ++ [m2.1],
                detections_y := s.detections_y ++ [y] }, m2.2 + 1)

/-- Model of the loop `for i in range(num_electrons): self.fire_electron()`
inside `doubleSlit.electron_beam`. -/
def doubleSlit.fireLoop (g : RNG) : ℕ → doubleSlit → ℕ → Except String (doubleSlit × ℕ)
  | 0, s, k => Except.ok (s, k)
  | Nat.succ n, s, k =>
      match s.fire_electron g k with
      | Except.ok (s1, k1) => doubleSlit.fireLoop g n s1 k1
      | Except.error e => Except.error e

/-- Model of `doubleSlit.electron_beam`: the two staleness checks followed by
`num_electrons` sequential calls of `fire_electron`. -/
def doubleSlit.electron_beam (s : doubleSlit) (num_electrons : ℕ) (g : RNG) (k : ℕ) :
    Except String (doubleSlit × ℕ) :=
  if s.slit_dist ≠ s.wavefunction.d then
    Except.error "slit_dist attribute has been modified. Screen must be cleared."
  else if s.distance_to_screen ≠ s.wavefunction.distance_to_screen then
    Except.error "distance_to_screen attribute has been modified. Screen must be cleared."
  else
    doubleSlit.fireLoop g num_electrons s k

/-- Model of `doubleSlit.clear_screen`: empties both detection logs and
rebuilds the wavefunction from the current configuration fields. -/
def doubleSlit.clear_screen (s : doubleSlit) : doubleSlit :=
  { s with detections_x := [], detections_y := [],
           wavefunction := waveFunction.init s.slit_dist s.distance_to_screen s.measure_slit }

/-- Spec wording, for the refinement claim C2: "the support is 1000 evenly
spaced points on [-10,10]", point `i` lying at `-10 + (20/999)*i`. -/
def specSupport (i : ℕ) : ℝ := -10 + 20 / 999 * i

/-- Spec wording: the "100-point evenly spaced refinement" of the `i`-th
adjacent support interval. -/
def specRefined (i j : ℕ) : ℝ :=
  specSupport i + (specSupport (i + 1) - specSupport i) * j / 99

/-- Spec wording: "the trapezoidal integral of the unnormalized density over
the full support". -/
def specNormConst (d distance_to_screen : ℝ) : ℝ :=
  trapezoid (fun i => Real.cos (Real.pi * d * specSupport i / distance_to_screen) ^ 2)
    specSupport 1000

/-- Spec wording: "the trapezoidal integral of the normalized density
(cos^2(pi*d*x/L) divided by the trapezoidal integral of the unnormalized
density over the full support)" over the refinement of interval `i`. -/
def specBinMass (d distance_to_screen : ℝ) (i : ℕ) : ℝ :=
  trapezoid
    (fun j => Real.cos (Real.pi * d * specRefined i j / distance_to_screen) ^ 2 /
        specNormConst d distance_to_screen)
    (specRefined i) 100

/-- Spec wording: "the leftmost support point is assigned weight 0" and each
of the 999 interval masses goes to the interval's right-hand support point. -/
def specPreWeights (d distance_to_screen : ℝ) : List ℝ :=
  0 :: List.ofFn (fun i : Fin 999 => specBinMass d distance_to_screen i.val)

/-- Spec wording: "the resulting 1000-length sequence is then renormalized by
dividing every entry by the sequence's sum". -/
def specBinWeights (d distance_to_screen : ℝ) : List ℝ :=
  (specPreWeights d distance_to_screen).map
    (fun p => p / (specPreWeights d distance_to_screen).sum)

end

/-! ### Helper lemmas about the quadrature rule and the grids -/

theorem trapezoid_nonneg (y x : ℕ → ℝ) (n : ℕ)
    (hy : ∀ i, i < n → 0 ≤ y i) (hx : ∀ i, i + 1 < n → x i ≤ x (i + 1)) :
    0 ≤ trapezoid y x n := by
  refine Finset.sum_nonneg ?_
  intro i hi
  rw [Finset.mem_range] at hi
  have hi1 : i + 1 < n := by omega
  have hya := hy i (by omega)
  have hyb := hy (i + 1) hi1
  have hxa := hx i hi1
  have h2 : (0:ℝ) ≤ 2 := by norm_num
  exact div_nonneg (mul_nonneg (by linarith) (by linarith)) h2

theorem trapezoid_div (y : ℕ → ℝ) (c : ℝ) (x : ℕ → ℝ) (n : ℕ) :
    trapezoid (fun i => y i / c) x n = trapezoid y x n / c := by
  unfold trapezoid
  rw [Finset.sum_div]
  refine Finset.sum_congr rfl ?_
  intro i _
  ring

theorem trapezoid_const (y x : ℕ → ℝ) (n : ℕ) (c : ℝ) (hy : ∀ i, i < n → y i = c) :
    trapezoid y x n = c * (x (n - 1) - x 0) := by
  unfold trapezoid
  have key : ∀ i ∈ Finset.range (n - 1),
      (x (i + 1) - x i) * (y i + y (i + 1)) / 2 = c * (x (i + 1) - x i) := by
    intro i hi
    rw [Finset.mem_range] at hi
    rw [hy i (by omega), hy (i + 1) (by omega)]
    ring
  rw [Finset.sum_congr rfl key, ← Finset.mul_sum, Finset.sum_range_sub (f := x)]

theorem contValues_succ_sub (i : ℕ) : contValues (i + 1) - contValues i = 20 / 999 := by
  unfold contValues linspace
  push_cast
  ring

theorem refGrid_zero (i : ℕ) : refGrid i 0 = contValues i := by
  unfold refGrid linspace
  push_cast
  ring

theorem refGrid_last (i : ℕ) : refGrid i 99 = contValues (i + 1) := by
  unfold refGrid linspace
  push_cast
  ring

theorem refGrid_mono (i j : ℕ) : refGrid i j ≤ refGrid i (j + 1) := by
  have hd := contValues_succ_sub i
  have hstep : refGrid i (j + 1) - refGrid i j = 20 / 999 / 99 := by
    unfold refGrid linspace
    rw [hd]
    push_cast
    ring
  linarith

theorem evaluate_unnormalized_nonneg (d distance_to_screen x : ℝ) :
    0 ≤ evaluate_unnormalized d distance_to_screen x := by
  unfold evaluate_unnormalized
  positivity

theorem rawBin_nonneg (d distance_to_screen : ℝ) (i : ℕ) :
    0 ≤ trapezoid (fun j => evaluate_unnormalized d distance_to_screen (refGrid i j))
          (refGrid i) 100 :=
  trapezoid_nonneg _ _ _ (fun j _ => evaluate_unnormalized_nonneg d distance_to_screen _)
    (fun j _ => refGrid_mono i j)

theorem binMass_eq_div (d distance_to_screen : ℝ) (i : ℕ) :
    binMass d distance_to_screen i =
      trapezoid (fun j => evaluate_unnormalized d distance_to_screen (refGrid i j))
        (refGrid i) 100 / normConst d distance_to_screen :=
  trapezoid_div (fun j => evaluate_unnormalized d distance_to_screen (refGrid i j))
    (normConst d distance_to_screen) (refGrid i) 100

theorem probsList_sum (d distance_to_screen : ℝ) :
    (probsList d distance_to_screen).sum =
      ∑ i ∈ Finset.range 999, binMass d distance_to_screen i := by
  unfold probsList
  rw [List.sum_cons, List.sum_ofFn, zero_add, Fin.sum_univ_eq_sum_range]

theorem normConst_pos_of_sum_pos (d distance_to_screen : ℝ)
    (hS : 0 < (probsList d distance_to_screen).sum) :
    0 < normConst d distance_to_screen := by
  rcases lt_trichotomy (normConst d distance_to_screen) 0 with h | h | h
  · exfalso
    have hle : ∀ i ∈ Finset.range 999, binMass d distance_to_screen i ≤ 0 := by
      intro i _
      rw [binMass_eq_div]
      exact div_nonpos_iff.2 (Or.inl ⟨rawBin_nonneg d distance_to_screen i, h.le⟩)
    have := Finset.sum_nonpos hle
    rw [probsList_sum] at hS
    linarith
  · exfalso
    have hz : ∀ i ∈ Finset.range 999, binMass d distance_to_screen i = 0 := by
      intro i _
      rw [binMass_eq_div, h, div_zero]
    rw [probsList_sum, Finset.sum_congr rfl hz, Finset.sum_const_zero] at hS
    exact lt_irrefl 0 hS
  · exact h

theorem binMass_nonneg (d distance_to_screen : ℝ) (i : ℕ)
    (h : 0 < normConst d distance_to_screen) :
    0 ≤ binMass d distance_to_screen i := by
  rw [binMass_eq_div]
  exact div_nonneg (rawBin_nonneg d distance_to_screen i) h.le

theorem probsList_mem_nonneg (d distance_to_screen : ℝ)
    (h : 0 < normConst d distance_to_screen) :
    ∀ p ∈ probsList d distance_to_screen, 0 ≤ p := by
  intro p hp
  unfold probsList at hp
  rcases List.mem_cons.1 hp with h0 | h1
  · simp [h0]
  · rw [List.mem_ofFn] at h1
    obtain ⟨i, hi⟩ := h1
    rw [← hi]
    exact binMass_nonneg d distance_to_screen i.val h

theorem list_sum_map_div (l : List ℝ) (c : ℝ) :
    (l.map (fun p => p / c)).sum = l.sum / c := by
  induction l with
  | nil => simp
  | cons a t ih => simp [ih, add_div]

/-! ### Basic facts about the constructed objects -/

theorem wfInit_d (d distance_to_screen : ℝ) (m : Bool) :
    (waveFunction.init d distance_to_screen m).d = d := by
  cases m <;> rfl

theorem wfInit_dts (d distance_to_screen : ℝ) (m : Bool) :
    (waveFunction.init d distance_to_screen m).distance_to_screen = distance_to_screen := by
  cases m <;> rfl

theorem wfInit_ms (d distance_to_screen : ℝ) (m : Bool) :
    (waveFunction.init d distance_to_screen m).measure_slit = m := by
  cases m <;> rfl

theorem wfInitF_probs (d distance_to_screen : ℝ) :
    (waveFunction.init d distance_to_screen false).probs =
      (probsList d distance_to_screen).map
        (fun p => p / (probsList d distance_to_screen).sum) := by
  unfold waveFunction.init
  rw [if_neg (by simp)]

theorem wfInitF_values (d distance_to_screen : ℝ) :
    (waveFunction.init d distance_to_screen false).values =
      List.ofFn (fun i : Fin 1000 => contValues i.val) := by
  unfold waveFunction.init
  rw [if_neg (by simp)]

theorem wfInitF_norm (d distance_to_screen : ℝ) :
    (waveFunction.init d distance_to_screen false).norm =
      normConst d distance_to_screen := by
  unfold waveFunction.init
  rw [if_neg (by simp)]

theorem measure_snd (w : waveFunction) (g : RNG) (k : ℕ) :
    (w.measure g k).2 = k + 2 := by
  cases h : w.measure_slit <;> simp [waveFunction.measure, h]

theorem fire_electron_ok (s : doubleSlit) (g : RNG) (k : ℕ)
    (h1 : s.slit_dist = s.wavefunction.d)
    (h2 : s.distance_to_screen = s.wavefunction.distance_to_screen) :
    s.fire_electron g k =
      Except.ok
        ({ s with detections_x := s.detections_x ++ [(s.wavefunction.measure g (k + 2)).1],
                  detections_y := s.detections_y ++ [g (k + 4) (RandReq.normal 1.7)] },
         k + 5) := by
  unfold doubleSlit.fire_electron
  rw [if_neg (by simp [h1]), if_neg (by simp [h2])]
  simp only [measure_snd]

theorem fireLoop_ok (g : RNG) : ∀ (n : ℕ) (s : doubleSlit) (k : ℕ),
    s.slit_dist = s.wavefunction.d →
    s.distance_to_screen = s.wavefunction.distance_to_screen →
    ∃ s', doubleSlit.fireLoop g n s k = Except.ok (s', k + 5 * n)
      ∧ s'.slit_dist = s.slit_dist
      ∧ s'.distance_to_screen = s.distance_to_screen
      ∧ s'.measure_slit = s.measure_slit
      ∧ s'.screen_width = s.screen_width
      ∧ s'.screen_height = s.screen_height
      ∧ s'.wavefunction = s.wavefunction
      ∧ s'.detections_x.length = s.detections_x.length + n
      ∧ s'.detections_y.length = s.detections_y.length + n := by
  intro n
  induction n with
  | zero =>
    intro s k _ _
    exact ⟨s, by simp [doubleSlit.fireLoop], rfl, rfl, rfl, rfl, rfl, rfl, by omega, by omega⟩
  | succ n ih =>
    intro s k h1 h2
    obtain ⟨s', hrun, p1, p2, p3, p4, p5, p6, p7, p8⟩ :=
      ih { s with detections_x := s.detections_x ++ [(s.wavefunction.measure g (k + 2)).1],
                  detections_y := s.detections_y ++ [g (k + 4) (RandReq.normal 1.7)] }
        (k + 5) h1 h2
    have hstep : doubleSlit.fireLoop g (n + 1) s k =
        doubleSlit.fireLoop g n
          { s with detections_x := s.detections_x ++ [(s.wavefunction.measure g (k + 2)).1],
                   detections_y := s.detections_y ++ [g (k + 4) (RandReq.normal 1.7)] }
          (k + 5) := by
      rw [doubleSlit.fireLoop, fire_electron_ok s g k h1 h2]
    have hk : k + 5 + 5 * n = k + 5 * (n + 1) := by ring
    refine ⟨s', ?_, by simpa using p1, by simpa using p2, by simpa using p3,
      by simpa using p4, by simpa using p5, by simpa using p6, ?_, ?_⟩
    · rw [hstep, hrun, hk]
    · simp only [List.length_append, List.length_cons, List.length_nil] at p7
      omega
    · simp only [List.length_append, List.length_cons, List.length_nil] at p8
      omega

theorem fire_electron_error_iff (s : doubleSlit) (g : RNG) (k : ℕ) :
    (∃ e, s.fire_electron g k = Except.error e) ↔
      (s.slit_dist ≠ s.wavefunction.d ∨
        s.distance_to_screen ≠ s.wavefunction.distance_to_screen) := by
  constructor
  · rintro ⟨e, he⟩
    by_contra hno
    push_neg at hno
    rw [fire_electron_ok s g k hno.1 hno.2] at he
    exact Except.noConfusion he
  · intro h
    unfold doubleSlit.fire_electron
    by_cases h1 : s.slit_dist ≠ s.wavefunction.d
    · rw [if_pos h1]
      exact ⟨_, rfl⟩
    · have h2 : s.distance_to_screen ≠ s.wavefunction.distance_to_screen := by tauto
      rw [if_neg h1, if_pos h2]
      exact ⟨_, rfl⟩

theorem electron_beam_error_iff (s : doubleSlit) (n : ℕ) (g : RNG) (k : ℕ) :
    (∃ e, s.electron_beam n g k = Except.error e) ↔
      (s.slit_dist ≠ s.wavefunction.d ∨
        s.distance_to_screen ≠ s.wavefunction.distance_to_screen) := by
  constructor
  · rintro ⟨e, he⟩
    by_contra hno
    push_neg at hno
    unfold doubleSlit.electron_beam at he
    rw [if_neg (by simp [hno.1]), if_neg (by simp [hno.2])] at he
    obtain ⟨s', hrun, -⟩ := fireLoop_ok g n s k hno.1 hno.2
    rw [hrun] at he
    exact Except.noConfusion he
  · intro h
    unfold doubleSlit.electron_beam
    by_cases h1 : s.slit_dist ≠ s.wavefunction.d
    · rw [if_pos h1]
      exact ⟨_, rfl⟩
    · have h2 : s.distance_to_screen ≠ s.wavefunction.distance_to_screen := by tauto
      rw [if_neg h1, if_pos h2]
      exact ⟨_, rfl⟩

theorem electron_beam_run (s : doubleSlit) (n : ℕ) (g : RNG) (k : ℕ)
    (h1 : s.slit_dist = s.wavefunction.d)
    (h2 : s.distance_to_screen = s.wavefunction.distance_to_screen) :
    s.electron_beam n g k = doubleSlit.fireLoop g n s k := by
  unfold doubleSlit.electron_beam
  rw [if_neg (by simp [h1]), if_neg (by simp [h2])]

/-! ### The continuous construction agrees with the spec's arithmetic description -/

theorem contValues_eq_spec : contValues = specSupport := by
  funext i
  unfold contValues linspace specSupport
  push_cast
  ring

theorem refGrid_eq_spec : refGrid = specRefined := by
  funext i j
  unfold refGrid linspace specRefined
  rw [contValues_eq_spec]
  push_cast
  ring

theorem normConst_eq_spec : normConst = specNormConst := by
  funext d distance_to_screen
  unfold normConst specNormConst evaluate_unnormalized
  rw [contValues_eq_spec]

theorem binMass_eq_spec : binMass = specBinMass := by
  funext d distance_to_screen i
  unfold binMass specBinMass evaluate_unnormalized
  rw [refGrid_eq_spec, normConst_eq_spec]

theorem probsList_eq_spec : probsList = specPreWeights := by
  funext d distance_to_screen
  unfold probsList specPreWeights
  rw [binMass_eq_spec]

/-! ### Claim theorems -/

/-- C2: in continuous mode the support is 1000 evenly spaced points on
[-10,10]; the leftmost support point gets weight 0; each of the 999
interval weights is the trapezoidal integral of the normalized density
over a 100-point evenly spaced refinement of the interval, assigned to the
right-hand support point; and the 1000-length sequence is renormalized by
dividing every entry by its sum.  Stated as equality between the source
construction and definitions transcribed from the spec's wording. -/
theorem C2_continuous_construction_refines_spec (d distance_to_screen : ℝ) :
    (waveFunction.init d distance_to_screen false).values =
      List.ofFn (fun i : Fin 1000 => specSupport i.val)
    ∧ (waveFunction.init d distance_to_screen false).probs =
        specBinWeights d distance_to_screen
    ∧ (waveFunction.init d distance_to_screen false).probs.getD 0 0 = 0 := by
  refine ⟨?_, ?_, ?_⟩
  · rw [wfInitF_values, contValues_eq_spec]
  · rw [wfInitF_probs, probsList_eq_spec]
    rfl
  · rw [wfInitF_probs, probsList, List.map_cons, List.getD_cons_zero]
    exact zero_div _

/-- C2 witness: the refinement equality instantiated at a concrete input. -/
theorem C2_witness :
    (waveFunction.init 0 1 false).probs = specBinWeights 0 1 :=
  (C2_continuous_construction_refines_spec 0 1).2.1

/-- C3: collapsed mode is exactly two point masses: support is the two
points -d/2 and d/2, the weights are [0.5, 0.5], the normalization constant
is 1, and `evaluate` returns 0.5 at an argument exactly equal to either
point and 0 at every other argument. -/
theorem C3_collapsed_two_point_masses (d distance_to_screen : ℝ) :
    (waveFunction.init d distance_to_screen true).values = [-(d / 2), d / 2]
    ∧ (waveFunction.init d distance_to_screen true).probs = [0.5, 0.5]
    ∧ (waveFunction.init d distance_to_screen true).norm = 1
    ∧ (∀ x : ℝ, (x = -(d / 2) ∨ x = d / 2) →
        (waveFunction.init d distance_to_screen true).evaluate x = 0.5)
    ∧ (∀ x : ℝ, x ≠ -(d / 2) → x ≠ d / 2 →
        (waveFunction.init d distance_to_screen true).evaluate x = 0) := by
  have hneg : -1 * d / 2 = -(d / 2) := by ring
  have heval : ∀ x : ℝ, (waveFunction.init d distance_to_screen true).evaluate x =
      if x = -(d / 2) then 0.5 else if x = d / 2 then 0.5 else 0 := by
    intro x
    unfold waveFunction.evaluate
    rw [wfInit_ms, wfInit_d, hneg]
    simp
  refine ⟨?_, rfl, rfl, ?_, ?_⟩
  · show [-1 * d / 2, d / 2] = [-(d / 2), d / 2]
    rw [hneg]
  · intro x hx
    rw [heval]
    rcases hx with hx | hx
    · rw [if_pos hx]
    · by_cases hx0 : x = -(d / 2)
      · rw [if_pos hx0]
      · rw [if_neg hx0, if_pos hx]
  · intro x hx1 hx2
    rw [heval, if_neg hx1, if_neg hx2]

/-- C3 witness: collapsed model with `d = 1` evaluated at the right slit. -/
theorem C3_witness :
    (waveFunction.init 1 10 true).probs = [0.5, 0.5]
    ∧ (waveFunction.init 1 10 true).evaluate (1 / 2) = 0.5
    ∧ (waveFunction.init 1 10 true).evaluate 3 = 0 :=
  ⟨(C3_collapsed_two_point_masses 1 10).2.1,
   (C3_collapsed_two_point_masses 1 10).2.2.2.1 (1 / 2) (Or.inr rfl),
   (C3_collapsed_two_point_masses 1 10).2.2.2.2 3 (by norm_num) (by norm_num)⟩

/-! ### Preservation of the wavefunction by the detection operations -/

theorem fire_electron_preserves (s s' : doubleSlit) (g : RNG) (k k' : ℕ)
    (h : s.fire_electron g k = Except.ok (s', k')) :
    s'.wavefunction = s.wavefunction
    ∧ s'.slit_dist = s.slit_dist ∧ s'.distance_to_screen = s.distance_to_screen := by
  by_cases h1 : s.slit_dist = s.wavefunction.d
  · by_cases h2 : s.distance_to_screen = s.wavefunction.distance_to_screen
    · rw [fire_electron_ok s g k h1 h2] at h
      have h3 := Except.ok.inj h
      rw [Prod.mk.injEq] at h3
      rw [← h3.1]
      exact ⟨rfl, rfl, rfl⟩
    · obtain ⟨e, he⟩ := (fire_electron_error_iff s g k).2 (Or.inr h2)
      rw [he] at h
      exact Except.noConfusion h
  · obtain ⟨e, he⟩ := (fire_electron_error_iff s g k).2 (Or.inl h1)
    rw [he] at h
    exact Except.noConfusion h

theorem fireLoop_preserves (g : RNG) : ∀ (n : ℕ) (s s' : doubleSlit) (k k' : ℕ),
    doubleSlit.fireLoop g n s k = Except.ok (s', k') → s'.wavefunction = s.wavefunction := by
  intro n
  induction n with
  | zero =>
    intro s s' k k' h
    rw [doubleSlit.fireLoop] at h
    have h3 := Except.ok.inj h
    rw [Prod.mk.injEq] at h3
    rw [← h3.1]
  | succ n ih =>
    intro s s' k k' h
    rw [doubleSlit.fireLoop] at h
    split at h
    · rename_i s1k1 heq
      exact (ih _ s' _ k' h).trans (fire_electron_preserves s _ g k _ heq).1
    · exact Except.noConfusion h

theorem electron_beam_preserves (s s' : doubleSlit) (n : ℕ) (g : RNG) (k k' : ℕ)
    (h : s.electron_beam n g k = Except.ok (s', k')) :
    s'.wavefunction = s.wavefunction := by
  unfold doubleSlit.electron_beam at h
  by_cases h1 : s.slit_dist ≠ s.wavefunction.d
  · rw [if_pos h1] at h
    exact Except.noConfusion h
  · rw [if_neg h1] at h
    by_cases h2 : s.distance_to_screen ≠ s.wavefunction.distance_to_screen
    · rw [if_pos h2] at h
      exact Except.noConfusion h
    · rw [if_neg h2] at h
      exact fireLoop_preserves g n s s' k k' h

/-! ### Concrete evaluation of the continuous construction at d = 0 -/

theorem evaluate_unnormalized_zero (distance_to_screen x : ℝ) :
    evaluate_unnormalized 0 distance_to_screen x = 1 := by
  unfold evaluate_unnormalized
  simp

theorem contValues_999 : contValues 999 = 10 := by
  unfold contValues linspace
  norm_num

theorem contValues_zero : contValues 0 = -10 := by
  unfold contValues linspace
  norm_num

theorem normConst_zero (distance_to_screen : ℝ) : normConst 0 distance_to_screen = 20 := by
  unfold normConst
  rw [trapezoid_const _ _ _ 1 (fun i _ => evaluate_unnormalized_zero distance_to_screen _)]
  norm_num [contValues_999, contValues_zero]

theorem binMass_zero (i : ℕ) : binMass 0 1 i = 1 / 999 := by
  unfold binMass
  have hc : ∀ j, j < 100 →
      evaluate_unnormalized 0 1 (refGrid i j) / normConst 0 1 = 1 / 20 := by
    intro j _
    rw [evaluate_unnormalized_zero, normConst_zero]
  rw [trapezoid_const _ _ _ (1 / 20) hc]
  have h99 : (100 : ℕ) - 1 = 99 := rfl
  rw [h99, refGrid_last, refGrid_zero, contValues_succ_sub]
  norm_num

theorem probsList_sum_zero_one : (probsList 0 1).sum = 1 := by
  rw [probsList_sum, Finset.sum_congr rfl (fun i _ => binMass_zero i),
    Finset.sum_const, Finset.card_range]
  norm_num

/-- C1: for every construction, in both modes, `bin_weights` has the same
length as `support`, every entry is nonnegative, the entries sum to 1
(exactly in this real-number model, hence within the 1e-9 tolerance the
claim allows in continuous mode), and neither detection operation ever
changes `bin_weights` after construction (`evaluate` and `measure` are
pure and return no state at all).  In continuous mode the hypothesis says
the pre-renormalization quadrature weights have positive sum, which is the
real-number counterpart of the construction not degenerating. -/
theorem C1_bin_weights_valid_distribution (d distance_to_screen : ℝ) (m : Bool)
    (hS : m = false → 0 < (probsList d distance_to_screen).sum) :
    (waveFunction.init d distance_to_screen m).probs.length =
      (waveFunction.init d distance_to_screen m).values.length
    ∧ (waveFunction.init d distance_to_screen m).probs.sum = 1
    ∧ (∀ p ∈ (waveFunction.init d distance_to_screen m).probs, 0 ≤ p)
    ∧ (∀ (s s' : doubleSlit) (g : RNG) (k k' : ℕ),
        s.fire_electron g k = Except.ok (s', k') →
          s'.wavefunction.probs = s.wavefunction.probs)
    ∧ (∀ (s s' : doubleSlit) (n : ℕ) (g : RNG) (k k' : ℕ),
        s.electron_beam n g k = Except.ok (s', k') →
          s'.wavefunction.probs = s.wavefunction.probs) := by
  have main : (waveFunction.init d distance_to_screen m).probs.length =
        (waveFunction.init d distance_to_screen m).values.length
      ∧ (waveFunction.init d distance_to_screen m).probs.sum = 1
      ∧ (∀ p ∈ (waveFunction.init d distance_to_screen m).probs, 0 ≤ p) := by
    cases m with
    | true =>
      refine ⟨rfl, ?_, ?_⟩
      · show ([0.5, 0.5] : List ℝ).sum = 1
        norm_num
      · intro p hp
        have hp' : p ∈ ([0.5, 0.5] : List ℝ) := hp
        simp only [List.mem_cons, List.not_mem_nil, or_false] at hp'
        rcases hp' with h | h <;> rw [h] <;> norm_num
    | false =>
      have hSpos := hS rfl
      have hnorm := normConst_pos_of_sum_pos d distance_to_screen hSpos
      refine ⟨?_, ?_, ?_⟩
      · rw [wfInitF_probs, wfInitF_values, List.length_map, List.length_ofFn]
        unfold probsList
        rw [List.length_cons, List.length_ofFn]
      · rw [wfInitF_probs, list_sum_map_div, div_self (ne_of_gt hSpos)]
      · intro p hp
        rw [wfInitF_probs, List.mem_map] at hp
        obtain ⟨q, hq, rfl⟩ := hp
        exact div_nonneg (probsList_mem_nonneg d distance_to_screen hnorm q hq) hSpos.le
  exact ⟨main.1, main.2.1, main.2.2,
    fun s s' g k k' h => congrArg waveFunction.probs (fire_electron_preserves s s' g k k' h).1,
    fun s s' n g k k' h => congrArg waveFunction.probs (electron_beam_preserves s s' n g k k' h)⟩

/-- C1 witness: continuous mode at `d = 0`, `distance_to_screen = 1`, where
the pre-renormalization quadrature sum evaluates to 1. -/
theorem C1_witness :
    (waveFunction.init 0 1 false).probs.length =
      (waveFunction.init 0 1 false).values.length
    ∧ (waveFunction.init 0 1 false).probs.sum = 1 :=
  ⟨(C1_bin_weights_valid_distribution 0 1 false
      (fun _ => by rw [probsList_sum_zero_one]; exact one_pos)).1,
   (C1_bin_weights_valid_distribution 0 1 false
      (fun _ => by rw [probsList_sum_zero_one]; exact one_pos)).2.1⟩

/-- C4: for every constructed model, sampling returns the categorical draw
over (support, bin_weights) plus a jitter draw: Gaussian with standard
deviation 0.2 in collapsed mode, uniform on [-0.01, 0.01] otherwise; the
call counter always advances by exactly two primitive draws and the
operation is total (no failure branch). -/
theorem C4_measure_draw_structure (d distance_to_screen : ℝ) (m : Bool) (g : RNG) (k : ℕ) :
    ((waveFunction.init d distance_to_screen m).measure g k).1 =
      g k (RandReq.choice (waveFunction.init d distance_to_screen m).values
            (waveFunction.init d distance_to_screen m).probs)
        + (if m then g (k + 1) (RandReq.normal 0.2)
           else g (k + 1) (RandReq.uniform (-0.01) 0.01))
    ∧ ((waveFunction.init d distance_to_screen m).measure g k).2 = k + 2 := by
  constructor
  · unfold waveFunction.measure
    rw [wfInit_ms]
    cases m
    · simp
    · simp
  · exact measure_snd _ g k

/-- C4 witness: the counter advance at a concrete input. -/
theorem C4_witness :
    ((waveFunction.init 1 10 true).measure (fun _ _ => 0) 0).2 = 0 + 2 :=
  (C4_measure_draw_structure 1 10 true (fun _ _ => 0) 0).2

/-- C5: a successful single detection performs two independent sample draws
(the recorded x comes from the second, started at counter k+2; the first,
started at k, feeds only the discarded tangent value), appends that second
raw draw to the x log and one Gaussian draw with standard deviation 1.7
(at counter k+4) to the y log, advances the counter by exactly the five
primitive draws consumed, and grows each log by exactly one element,
preserving equality of the two log lengths. -/
theorem C5_fire_electron_two_draws (s : doubleSlit) (g : RNG) (k : ℕ)
    (h1 : s.slit_dist = s.wavefunction.d)
    (h2 : s.distance_to_screen = s.wavefunction.distance_to_screen) :
    s.fire_electron g k =
      Except.ok
        ({ s with detections_x := s.detections_x ++ [(s.wavefunction.measure g (k + 2)).1],
                  detections_y := s.detections_y ++ [g (k + 4) (RandReq.normal 1.7)] },
         k + 5)
    ∧ (∀ s' k', s.fire_electron g k = Except.ok (s', k') →
        s'.detections_x.length = s.detections_x.length + 1
        ∧ s'.detections_y.length = s.detections_y.length + 1
        ∧ (s.detections_x.length = s.detections_y.length →
            s'.detections_x.length = s'.detections_y.length)) := by
  have hok := fire_electron_ok s g k h1 h2
  refine ⟨hok, ?_⟩
  intro s' k' h
  rw [hok] at h
  have h3 := Except.ok.inj h
  rw [Prod.mk.injEq] at h3
  rw [← h3.1]
  refine ⟨?_, ?_, ?_⟩
  · simp
  · simp
  · intro hlen
    simp only [List.length_append, List.length_cons, List.length_nil]
    omega

/-- C5 witness: one detection on a freshly built collapsed-mode detector. -/
theorem C5_witness :
    (doubleSlit.init 1 10 200 100 true).fire_electron (fun _ _ => 0) 0 =
      Except.ok
        ({ doubleSlit.init 1 10 200 100 true with
            detections_x := (doubleSlit.init 1 10 200 100 true).detections_x ++
              [((doubleSlit.init 1 10 200 100 true).wavefunction.measure (fun _ _ => 0) 2).1],
            detections_y := (doubleSlit.init 1 10 200 100 true).detections_y ++
              [(fun _ _ => (0 : ℝ)) 4 (RandReq.normal 1.7)] },
         5) :=
  (C5_fire_electron_two_draws (doubleSlit.init 1 10 200 100 true) (fun _ _ => 0) 0 rfl rfl).1

/-- C6: a detection request (single or batched) fails with the staleness
ValueError exactly when the live `slit_dist` or `distance_to_screen` field
differs from the value baked into the owned wavefunction; the check is the
first thing either operation does, and on a state produced only by the
constructor or by `clear_screen` the error never occurs. -/
theorem C6_staleness_error_characterization :
    (∀ (s : doubleSlit) (g : RNG) (k : ℕ),
        (∃ e, s.fire_electron g k = Except.error e) ↔
          (s.slit_dist ≠ s.wavefunction.d ∨
            s.distance_to_screen ≠ s.wavefunction.distance_to_screen))
    ∧ (∀ (s : doubleSlit) (n : ℕ) (g : RNG) (k : ℕ),
        (∃ e, s.electron_beam n g k = Except.error e) ↔
          (s.slit_dist ≠ s.wavefunction.d ∨
            s.distance_to_screen ≠ s.wavefunction.distance_to_screen))
    ∧ (∀ (slit_dist distance_to_screen : ℝ) (screen_width screen_height : ℕ)
          (m : Bool) (g : RNG) (k : ℕ),
        ∃ out, (doubleSlit.init slit_dist distance_to_screen
            screen_width screen_height m).fire_electron g k = Except.ok out)
    ∧ (∀ (s : doubleSlit) (g : RNG) (k : ℕ),
        ∃ out, (s.clear_screen).fire_electron g k = Except.ok out) := by
  refine ⟨fire_electron_error_iff, electron_beam_error_iff, ?_, ?_⟩
  · intro sd dts sw sh m g k
    exact ⟨_, fire_electron_ok _ g k (wfInit_d sd dts m).symm (wfInit_dts sd dts m).symm⟩
  · intro s g k
    exact ⟨_, fire_electron_ok _ g k
      (wfInit_d s.slit_dist s.distance_to_screen s.measure_slit).symm
      (wfInit_dts s.slit_dist s.distance_to_screen s.measure_slit).symm⟩

/-- C7: the batched operation precondition-checks and then runs the single
detection n times: from any non-stale state, n electrons append exactly n
events to each log (n = 0 is a no-op returning the state unchanged), and on
a freshly constructed detector firing 5000 electrons yields detection logs
of length exactly 5000. -/
theorem C7_record_n_detections :
    (∀ (s : doubleSlit) (n : ℕ) (g : RNG) (k : ℕ),
        (s.slit_dist ≠ s.wavefunction.d ∨
          s.distance_to_screen ≠ s.wavefunction.distance_to_screen) →
        ∃ e, s.electron_beam n g k = Except.error e)
    ∧ (∀ (s : doubleSlit) (g : RNG) (k : ℕ),
        s.slit_dist = s.wavefunction.d →
        s.distance_to_screen = s.wavefunction.distance_to_screen →
        (∀ n : ℕ, ∃ s', s.electron_beam n g k = Except.ok (s', k + 5 * n)
            ∧ s'.detections_x.length = s.detections_x.length + n
            ∧ s'.detections_y.length = s.detections_y.length + n)
        ∧ s.electron_beam 0 g k = Except.ok (s, k))
    ∧ (∀ (slit_dist distance_to_screen : ℝ) (screen_width screen_height : ℕ)
          (m : Bool) (g : RNG),
        ∃ s' k',
          (doubleSlit.init slit_dist distance_to_screen
              screen_width screen_height m).electron_beam 5000 g 0 = Except.ok (s', k')
          ∧ s'.detections_x.length = 5000 ∧ s'.detections_y.length = 5000) := by
  refine ⟨fun s n g k h => (electron_beam_error_iff s n g k).2 h, ?_, ?_⟩
  · intro s g k h1 h2
    constructor
    · intro n
      obtain ⟨s', hrun, -, -, -, -, -, -, p7, p8⟩ := fireLoop_ok g n s k h1 h2
      exact ⟨s', by rw [electron_beam_run s n g k h1 h2]; exact hrun, p7, p8⟩
    · rw [electron_beam_run s 0 g k h1 h2, doubleSlit.fireLoop]
  · intro sd dts sw sh m g
    have h1 : (doubleSlit.init sd dts sw sh m).slit_dist =
        (doubleSlit.init sd dts sw sh m).wavefunction.d := (wfInit_d sd dts m).symm
    have h2 : (doubleSlit.init sd dts sw sh m).distance_to_screen =
        (doubleSlit.init sd dts sw sh m).wavefunction.distance_to_screen :=
      (wfInit_dts sd dts m).symm
    obtain ⟨s', hrun, -, -, -, -, -, -, p7, p8⟩ :=
      fireLoop_ok g 5000 (doubleSlit.init sd dts sw sh m) 0 h1 h2
    have hx : (doubleSlit.init sd dts sw sh m).detections_x = [] := rfl
    have hy : (doubleSlit.init sd dts sw sh m).detections_y = [] := rfl
    rw [hx] at p7
    rw [hy] at p8
    refine ⟨s', 0 + 5 * 5000, ?_, ?_, ?_⟩
    · rw [electron_beam_run _ 5000 g 0 h1 h2]
      exact hrun
    · simpa using p7
    · simpa using p8

/-- C7 witness: a zero-electron beam on a fresh detector is a no-op. -/
theorem C7_witness :
    (doubleSlit.init 1 10 200 100 true).electron_beam 0 (fun _ _ => 0) 0 =
      Except.ok (doubleSlit.init 1 10 200 100 true, 0) :=
  (C7_record_n_detections.2.1 (doubleSlit.init 1 10 200 100 true) (fun _ _ => 0) 0 rfl rfl).2

/-- C8: `clear_screen` empties both detection logs, rebuilds the wavefunction
from the current configuration fields (so an immediately following detection
request succeeds), and leaves the configuration fields and the screen
dimensions unchanged. -/
theorem C8_clear_screen_reset (s : doubleSlit) :
    (s.clear_screen).detections_x = []
    ∧ (s.clear_screen).detections_y = []
    ∧ (s.clear_screen).wavefunction =
        waveFunction.init s.slit_dist s.distance_to_screen s.measure_slit
    ∧ (s.clear_screen).slit_dist = s.slit_dist
    ∧ (s.clear_screen).distance_to_screen = s.distance_to_screen
    ∧ (s.clear_screen).measure_slit = s.measure_slit
    ∧ (s.clear_screen).screen_width = s.screen_width
    ∧ (s.clear_screen).screen_height = s.screen_height
    ∧ (∀ (g : RNG) (k : ℕ), ∃ out, (s.clear_screen).fire_electron g k = Except.ok out)
    ∧ (∀ (n : ℕ) (g : RNG) (k : ℕ),
        ∃ out, (s.clear_screen).electron_beam n g k = Except.ok out) := by
  have h1 : (s.clear_screen).slit_dist = (s.clear_screen).wavefunction.d :=
    (wfInit_d s.slit_dist s.distance_to_screen s.measure_slit).symm
  have h2 : (s.clear_screen).distance_to_screen =
      (s.clear_screen).wavefunction.distance_to_screen :=
    (wfInit_dts s.slit_dist s.distance_to_screen s.measure_slit).symm
  refine ⟨rfl, rfl, rfl, rfl, rfl, rfl, rfl, rfl, ?_, ?_⟩
  · intro g k
    exact ⟨_, fire_electron_ok _ g k h1 h2⟩
  · intro n g k
    obtain ⟨s', hrun, -⟩ := fireLoop_ok g n (s.clear_screen) k h1 h2
    exact ⟨_, by rw [electron_beam_run _ n g k h1 h2]; exact hrun⟩

/-- C8 witness: reset of a concrete detector. -/
theorem C8_witness :
    ((doubleSlit.init 1 10 200 100 true).clear_screen).detections_x = [] :=
  (C8_clear_screen_reset (doubleSlit.init 1 10 200 100 true)).1

/-- C9: the source performs no validation of its construction inputs: at the
invalid input distance_to_screen = 0 the constructor still runs to
completion and builds a full 1000-bin model (in Python the division by zero
propagates NaN into norm and probs with only a runtime warning), instead of
failing fast with an InvalidConfiguration error as the claim requires. -/
theorem C9_no_validation_construction_completes :
    (waveFunction.init 1 0 false).probs.length = 1000
    ∧ (waveFunction.init 1 0 false).values.length = 1000
    ∧ (waveFunction.init 1 0 false).norm = normConst 1 0 := by
  refine ⟨?_, ?_, ?_⟩
  · rw [wfInitF_probs, List.length_map]
    unfold probsList
    rw [List.length_cons, List.length_ofFn]
  · rw [wfInitF_values, List.length_ofFn]
  · rw [wfInitF_norm]

/-- C10: mutating only `measure_slit` after construction does not trip the
staleness check (which compares only `slit_dist` and `distance_to_screen`):
the detection proceeds, and the recorded event is drawn from the stale
wavefunction still built with the original `measure_slit` value. -/
theorem C10_measure_slit_mutation_not_checked (d distance_to_screen : ℝ)
    (screen_width screen_height : ℕ) (m : Bool) (g : RNG) (k : ℕ) :
    ({ doubleSlit.init d distance_to_screen screen_width screen_height m with
        measure_slit := !m }).wavefunction = waveFunction.init d distance_to_screen m
    ∧ (∃ s' k',
        ({ doubleSlit.init d distance_to_screen screen_width screen_height m with
            measure_slit := !m }).fire_electron g k = Except.ok (s', k')
        ∧ s'.detections_x = [((waveFunction.init d distance_to_screen m).measure g (k + 2)).1]
        ∧ s'.wavefunction = waveFunction.init d distance_to_screen m)
    ∧ (∀ n : ℕ, ∃ out,
        ({ doubleSlit.init d distance_to_screen screen_width screen_height m with
            measure_slit := !m }).electron_beam n g k = Except.ok out) := by
  have h1 : ({ doubleSlit.init d distance_to_screen screen_width screen_height m with
      measure_slit := !m }).slit_dist =
      ({ doubleSlit.init d distance_to_screen screen_width screen_height m with
          measure_slit := !m }).wavefunction.d :=
    (wfInit_d d distance_to_screen m).symm
  have h2 : ({ doubleSlit.init d distance_to_screen screen_width screen_height m with
      measure_slit := !m }).distance_to_screen =
      ({ doubleSlit.init d distance_to_screen screen_width screen_height m with
          measure_slit := !m }).wavefunction.distance_to_screen :=
    (wfInit_dts d distance_to_screen m).symm
  refine ⟨rfl, ⟨_, _, fire_electron_ok _ g k h1 h2, rfl, rfl⟩, ?_⟩
  intro n
  obtain ⟨s', hrun, -⟩ := fireLoop_ok g n _ k h1 h2
  exact ⟨_, by rw [electron_beam_run _ n g k h1 h2]; exact hrun⟩

/-- C10 witness: the stale model is retained at a concrete input. -/
theorem C10_witness :
    ({ doubleSlit.init 1 10 200 100 true with measure_slit := !true }).wavefunction =
      waveFunction.init 1 10 true :=
  (C10_measure_slit_mutation_not_checked 1 10 200 100 true (fun _ _ => 0) 0).1
